import Mathlib

/-!
Shallow embedding of MCP23017.py, a Saleae high-level analyzer that
reassembles I2C bus events into logical transactions and decodes them
into named MCP23017 register accesses.

Python integers are modelled as Nat, bytearrays as List Nat, the Saleae
GraphTime values as abstract Nat tags carried through unchanged, Python
dictionaries as association lists or Nat-indexed Option-valued functions,
and the two places where the Python code can raise (IndexError on an
empty payload, KeyError on a missing bank-table key) as an Except result.
-/

namespace MCP23017

/-- START_ADDRESS = 0x20 (line 6 of the source). -/
def START_ADDRESS : Nat := 0x20

/-- N_ADDRESSES = 8 (line 7 of the source). -/
def N_ADDRESSES : Nat := 8

/-- IOCON_BITS dictionary (lines 9-17), in Python insertion order. -/
def IOCON_BITS : List (String × Nat) :=
  [("INTPOL", 1), ("ODR", 2), ("HAEN", 3), ("DISSLW", 4),
   ("SEQOP", 5), ("MIRROW", 6), ("BANK", 7)]

/-- iocon_bit_test (lines 19-20): (reg & (1 << IOCON_BITS[string])) != 0. -/
def iocon_bit_test (reg : Nat) (key : String) : Bool :=
  reg &&& (1 <<< ((IOCON_BITS.lookup key).getD 0)) != 0

/-- The bank-0 register table MAP[0] (lines 23-46). -/
def MAP0 : List (Nat × String) :=
  [(0x00, "IODIRA"), (0x01, "IODIRB"), (0x02, "IPOLA"), (0x03, "IPOLB"),
   (0x04, "GPINTENA"), (0x05, "GPINTENB"), (0x06, "DEFVALA"), (0x07, "DEFVALB"),
   (0x08, "INTCONA"), (0x09, "INTCONB"), (0x0a, "IOCON"), (0x0b, "IOCON"),
   (0x0c, "GPPUA"), (0x0d, "GPPUB"), (0x0e, "INTFA"), (0x0f, "INTFB"),
   (0x10, "INTCAPA"), (0x11, "INTCAPB"), (0x12, "GPIOA"), (0x13, "GPIOB"),
   (0x14, "OLATA"), (0x15, "OLATB")]

/-- The bank-1 register table MAP[1] (lines 47-70). -/
def MAP1 : List (Nat × String) :=
  [(0x00, "IODIRA"), (0x10, "IODIRB"), (0x01, "IPOLA"), (0x11, "IPOLB"),
   (0x02, "GPINTENA"), (0x12, "GPINTENB"), (0x03, "DEFVALA"), (0x13, "DEFVALB"),
   (0x04, "INTCONA"), (0x14, "INTCONB"), (0x05, "IOCON"), (0x15, "IOCON"),
   (0x06, "GPPUA"), (0x16, "GPPUB"), (0x07, "INTFA"), (0x17, "INTFB"),
   (0x08, "INTCAPA"), (0x18, "INTCAPB"), (0x09, "GPIOA"), (0x19, "GPIOB"),
   (0x0a, "OLATA"), (0x1a, "OLATB")]

/-- MAP[iocon_bank].get(regaddr): the Python bank keys 0/1 (also reachable
as False/True after an IOCON write, which hash identically) are a Bool. -/
def mapGet (bank : Bool) (regaddr : Nat) : Option String :=
  List.lookup regaddr (if bank then MAP1 else MAP0)

/-- Lowercase hex digits of n, as Python hex() produces. -/
def hexChars (n : Nat) : List Char :=
  Nat.toDigits 16 n

/-- Python f-string formatting with format spec #04x: 0x prefix,
zero-filled to a total width of four characters. -/
def pyHex04 (n : Nat) : String :=
  let ds := hexChars n
  String.mk (List.append (List.cons '0' (List.cons 'x' (List.replicate (2 - ds.length) '0'))) ds)

/-- Python rendering of a bool inside an f-string. -/
def pyBool (b : Bool) : String :=
  if b then "True" else "False"

/-- The register name resolved for one offset (line 154):
MAP[iocon_bank].get(regaddr, f-string of regaddr followed by a question mark). -/
def regNameOf (bank : Bool) (regaddr : Nat) : String :=
  (mapGet bank regaddr).getD (pyHex04 regaddr ++ "?")

/-- The low-level FSM states (lines 74-77). -/
inductive LLState where
  | IDLE
  | START
  | DATA
deriving DecidableEq, Repr

/-- One bus event handed to decode: the discriminated frame types the
source inspects ("start", "address", "data", "stop"), with the fields it
reads from each (start_time, ack/read/address, data bytes, end_time). -/
inductive Event where
  | start (start_time : Nat)
  | address (read : Bool) (addr : Nat) (ack : Bool)
  | data (bytes : List Nat)
  | stop (end_time : Nat)
deriving DecidableEq, Repr

/-- The mutable per-instance reassembler fields (lines 108-113). -/
structure LLSt where
  state : LLState
  address : Option Nat
  data : List Nat
  start_time : Option Nat
  read : Bool
deriving DecidableEq, Repr

/-- The address check of line 126: START_ADDRESS <= a < START_ADDRESS + N_ADDRESSES. -/
def inWindow (a : Nat) : Prop :=
  START_ADDRESS ≤ a ∧ a < START_ADDRESS + N_ADDRESSES

instance (a : Nat) : Decidable (inWindow a) := by
  unfold inWindow; infer_instance

/-- reset (lines 108-113). -/
def llReset : LLSt :=
  { state := LLState.IDLE, address := none, data := [], start_time := none, read := false }

/-- LLFrame (lines 80-86). -/
structure LLFrame where
  start_time : Option Nat
  end_time : Nat
  data : List Nat
  read : Bool
  address : Option Nat
deriving DecidableEq, Repr

/-- ll_fsm (lines 115-146), translated branch for branch.  Every branch of
the Python that does not return early falls through to self.reset(); the
DATA/stop branch builds the frame and then also falls through to reset. -/
def ll_fsm (s : LLSt) (frame : Event) : LLSt × Option LLFrame :=
  match s.state, frame with
  | LLState.IDLE, Event.start t =>
      ({ s with state := LLState.START, start_time := some t }, none)
  | LLState.IDLE, _ => (llReset, none)
  | LLState.START, Event.address rd a ack =>
      if ack then
        let s2 := { s with read := s.read || rd, address := some a }
        if inWindow a then
          ({ s2 with state := LLState.DATA }, none)
        else (llReset, none)
      else (llReset, none)
  | LLState.START, _ => (llReset, none)
  | LLState.DATA, Event.data bs => ({ s with data := s.data ++ bs }, none)
  | LLState.DATA, Event.start _ => ({ s with state := LLState.START }, none)
  | LLState.DATA, Event.stop te =>
      (llReset,
       some { start_time := s.start_time, end_time := te, data := s.data,
              read := s.read, address := s.address })
  | LLState.DATA, Event.address _ _ _ => (llReset, none)

/-- Run the reassembler over a whole event list, collecting every emitted
logical transaction in order. -/
def llRun (s : LLSt) : List Event → LLSt × List LLFrame
  | [] => (s, [])
  | e :: rest =>
      let r1 := ll_fsm s e
      let r2 := llRun r1.1 rest
      (r2.1, r1.2.toList ++ r2.2)

/-- The self.IOCON_BANK dictionary: per chip address, the tracked bank
bit; none models a key absent from the dictionary (a KeyError on access). -/
def BankMap : Type := Nat → Option Bool

/-- Python dictionary assignment self.IOCON_BANK[a] = v. -/
def updBank (m : BankMap) (a : Nat) (v : Bool) : BankMap :=
  fun x => if x = a then some v else m x

/-- The IOCON_BANK dictionary built in __init__ (lines 102-105): one entry
per watched address, all equal to the configured initial bank. -/
def initBank (setting : Bool) : BankMap :=
  fun a => if inWindow a then some setting else none

/-- The ways the Python decode can raise: data[0] on an empty bytearray,
or a dictionary access for a key that is not present. -/
inductive DecodeError where
  | indexError
  | keyError
deriving DecidableEq, Repr

/-- The AnalyzerFrame payload produced by decode (lines 164-173): chip
address, direction label, and the joined field string. -/
structure Rec where
  address : Nat
  read : String
  data : String
deriving DecidableEq, Repr

/-- Python enumerate(vals, start=o). -/
def pyEnumerate (o : Nat) : List Nat → List (Nat × Nat)
  | [] => []
  | v :: rest => (o, v) :: pyEnumerate (o + 1) rest

/-- One iteration of the decode loop (lines 153-163): the accumulator
carries the field list built so far and the IOCON_BANK dictionary.  The
register name is resolved against the iocon_bank value read once before
the loop; an IOCON write stores the BANK bit of the value; verbose mode
expands IOCON into one field per named bit. -/
def decodeStep (showBits isRead : Bool) (addr : Nat) (iocon_bank : Bool)
    (acc : List String × BankMap) (p : Nat × Nat) : List String × BankMap :=
  let reg_name := regNameOf iocon_bank p.1
  if reg_name == "IOCON" then
    let bm := if isRead then acc.2 else updBank acc.2 addr (iocon_bit_test p.2 ("BANK"))
    if showBits then
      (acc.1 ++ IOCON_BITS.map (fun kb => kb.1 ++ "=" ++ pyBool (iocon_bit_test p.2 kb.1)), bm)
    else
      (acc.1 ++ [reg_name ++ "=" ++ pyHex04 p.2], bm)
  else
    (acc.1 ++ [reg_name ++ "=" ++ pyHex04 p.2], acc.2)

/-- The whole decode loop over the enumerated value bytes. -/
def decodeLoop (showBits isRead : Bool) (addr : Nat) (iocon_bank : Bool)
    (bmap : BankMap) (pairs : List (Nat × Nat)) : List String × BankMap :=
  pairs.foldl (decodeStep showBits isRead addr iocon_bank) ([], bmap)

/-- The body of decode (lines 148-173) applied to one completed logical
transaction: start_reg = data[0] (IndexError when empty), then
iocon_bank = IOCON_BANK[address] (KeyError when absent), then the loop,
then the AnalyzerFrame record. -/
def decode_tx (showBits : Bool) (bmap : BankMap) (f : LLFrame) :
    Except DecodeError (BankMap × Rec) :=
  match f.data with
  | [] => Except.error DecodeError.indexError
  | start_reg :: rest =>
      match f.address with
      | none => Except.error DecodeError.keyError
      | some addr =>
          match bmap addr with
          | none => Except.error DecodeError.keyError
          | some iocon_bank =>
              let r := decodeLoop showBits f.read addr iocon_bank bmap (pyEnumerate start_reg rest)
              let sep : String := "; "
              Except.ok
                (r.2,
                 { address := addr,
                   read := if f.read then "read" else "write",
                   data := String.intercalate sep r.1 })

/-- The whole analyzer instance: settings, bank dictionary, FSM fields. -/
structure HLA where
  iocon_bank_setting : Bool
  show_bits_setting : Bool
  IOCON_BANK : BankMap
  ll : LLSt

/-- Constructor (lines 99-106) for given settings. -/
def mkHLA (bank_setting show_bits : Bool) : HLA :=
  { iocon_bank_setting := bank_setting, show_bits_setting := show_bits,
    IOCON_BANK := initBank bank_setting, ll := llReset }

/-- decode (lines 148-173) on one incoming event: the FSM always advances;
when it emits a transaction the register decoder runs, either raising
(state keeps the old dictionary) or returning the record and the updated
dictionary. -/
def decode (m : HLA) (frame : Event) : HLA × Except DecodeError (Option Rec) :=
  let r := ll_fsm m.ll frame
  let m2 := { m with ll := r.1 }
  match r.2 with
  | none => (m2, Except.ok none)
  | some f =>
      match decode_tx m2.show_bits_setting m2.IOCON_BANK f with
      | Except.error e => (m2, Except.error e)
      | Except.ok p => ({ m2 with IOCON_BANK := p.1 }, Except.ok (some p.2))

/-- Feed a whole event list to the analyzer, collecting the per-event
decode results in order. -/
def runDecode (m : HLA) : List Event → HLA × List (Except DecodeError (Option Rec))
  | [] => (m, [])
  | e :: rest =>
      let r1 := decode m e
      let r2 := runDecode r1.1 rest
      (r2.1, r1.2 :: r2.2)

/-- A payload position that resolves to the configuration register under
the given bank table. -/
def isIocon (bank : Bool) (p : Nat × Nat) : Bool :=
  regNameOf bank p.1 == "IOCON"

/-- The expansion of one enumerated payload byte into its field strings,
exactly as one loop iteration appends them. -/
def fieldFor (showBits : Bool) (bank : Bool) (p : Nat × Nat) : List String :=
  let reg_name := regNameOf bank p.1
  if reg_name == "IOCON" then
    if showBits then
      IOCON_BITS.map (fun kb => kb.1 ++ "=" ++ pyBool (iocon_bit_test p.2 kb.1))
    else
      [reg_name ++ "=" ++ pyHex04 p.2]
  else
    [reg_name ++ "=" ++ pyHex04 p.2]

/-- Concatenation of the per-byte field expansions. -/
def expandAll (f : Nat × Nat → List String) : List (Nat × Nat) → List String
  | [] => []
  | p :: rest => f p ++ expandAll f rest

/-! ## Structural lemmas about the register tables and formatting -/

theorem lookup_none_of_big (l : List (Nat × String)) (bound k : Nat)
    (hb : ∀ p ∈ l, p.1 ≤ bound) (hk : bound < k) : List.lookup k l = none := by
  induction l with
  | nil => rfl
  | cons p t ih =>
      have hple : p.1 ≤ bound := hb p (List.mem_cons_self p t)
      have hne : (k == p.1) = false := by
        have : k ≠ p.1 := by omega
        exact beq_eq_false_iff_ne.mpr this
      simp only [List.lookup, hne]
      exact ih (fun q hq => hb q (List.mem_cons_of_mem p hq))

theorem mapGet_none_of_big (bank : Bool) (k : Nat) (hk : 0x1a < k) :
    mapGet bank k = none := by
  cases bank with
  | false =>
      exact lookup_none_of_big MAP0 0x1a k (by decide) hk
  | true =>
      exact lookup_none_of_big MAP1 0x1a k (by decide) hk

theorem append_qmark_ne_IOCON (s : String) : s ++ "?" ≠ "IOCON" := by
  intro h
  have hd : (s ++ "?").data = String.data ("IOCON") := by rw [h]
  rw [String.data_append] at hd
  have hlast := congrArg List.getLast? hd
  rw [List.getLast?_concat] at hlast
  have : List.getLast? (String.data ("IOCON")) = some ('N') := by decide
  rw [this] at hlast
  exact absurd (Option.some.inj hlast) (by decide)

theorem regNameOf_ne_IOCON_of_unmapped (bank : Bool) (k : Nat)
    (h : mapGet bank k = none) : (regNameOf bank k == "IOCON") = false := by
  rw [regNameOf, h, Option.getD_none]
  exact beq_eq_false_iff_ne.mpr (append_qmark_ne_IOCON (pyHex04 k))

/-! ## Lemmas about the enumeration of the payload -/

theorem pyEnumerate_length (vals : List Nat) : ∀ o : Nat,
    (pyEnumerate o vals).length = vals.length := by
  induction vals with
  | nil => intro o; rfl
  | cons v t ih => intro o; simp [pyEnumerate, ih]

theorem pyEnumerate_getD (vals : List Nat) : ∀ o i : Nat, i < vals.length →
    (pyEnumerate o vals).getD i (0, 0) = (o + i, vals.getD i 0) := by
  induction vals with
  | nil => intro o i h; simp at h
  | cons v t ih =>
      intro o i h
      cases i with
      | zero => simp [pyEnumerate]
      | succ j =>
          have hj : j < t.length := by simpa using h
          rw [pyEnumerate, List.getD_cons_succ, List.getD_cons_succ, ih (o + 1) j hj]
          have : o + 1 + j = o + (j + 1) := by omega
          rw [this]

/-! ## Lemmas about one iteration of the decode loop -/

theorem decodeStep_fst (sb rd : Bool) (addr : Nat) (bank : Bool)
    (acc : List String × BankMap) (p : Nat × Nat) :
    (decodeStep sb rd addr bank acc p).1 = acc.1 ++ fieldFor sb bank p := by
  cases sb <;> by_cases h : (regNameOf bank p.1 == "IOCON") = true <;>
    simp [decodeStep, fieldFor, h]

theorem decodeStep_snd (sb rd : Bool) (addr : Nat) (bank : Bool)
    (acc : List String × BankMap) (p : Nat × Nat) :
    (decodeStep sb rd addr bank acc p).2 =
      if isIocon bank p then
        (if rd then acc.2 else updBank acc.2 addr (iocon_bit_test p.2 ("BANK")))
      else acc.2 := by
  cases sb <;> cases rd <;> by_cases h : (regNameOf bank p.1 == "IOCON") = true <;>
    simp [decodeStep, isIocon, h]

/-! ## Lemmas about the whole decode loop -/

theorem foldl_decodeStep_fst (sb rd : Bool) (addr : Nat) (bank : Bool) :
    ∀ (pairs : List (Nat × Nat)) (fs : List String) (bm : BankMap),
    (pairs.foldl (decodeStep sb rd addr bank) (fs, bm)).1
      = fs ++ expandAll (fieldFor sb bank) pairs := by
  intro pairs
  induction pairs with
  | nil => intro fs bm; simp [expandAll]
  | cons p t ih =>
      intro fs bm
      rw [List.foldl_cons]
      have h := ih (decodeStep sb rd addr bank (fs, bm) p).1
        (decodeStep sb rd addr bank (fs, bm) p).2
      rw [show ((decodeStep sb rd addr bank (fs, bm) p).1,
               (decodeStep sb rd addr bank (fs, bm) p).2)
            = decodeStep sb rd addr bank (fs, bm) p from rfl] at h
      rw [h, decodeStep_fst, expandAll, List.append_assoc]

theorem decodeLoop_fst (sb rd : Bool) (addr : Nat) (bank : Bool)
    (bmap : BankMap) (pairs : List (Nat × Nat)) :
    (decodeLoop sb rd addr bank bmap pairs).1 = expandAll (fieldFor sb bank) pairs := by
  rw [decodeLoop, foldl_decodeStep_fst, List.nil_append]

theorem foldl_decodeStep_snd_read (sb : Bool) (addr : Nat) (bank : Bool) :
    ∀ (pairs : List (Nat × Nat)) (fs : List String) (bm : BankMap),
    (pairs.foldl (decodeStep sb true addr bank) (fs, bm)).2 = bm := by
  intro pairs
  induction pairs with
  | nil => intro fs bm; rfl
  | cons p t ih =>
      intro fs bm
      rw [List.foldl_cons]
      have h := ih (decodeStep sb true addr bank (fs, bm) p).1
        (decodeStep sb true addr bank (fs, bm) p).2
      rw [show ((decodeStep sb true addr bank (fs, bm) p).1,
               (decodeStep sb true addr bank (fs, bm) p).2)
            = decodeStep sb true addr bank (fs, bm) p from rfl] at h
      rw [h, decodeStep_snd]
      split <;> rfl

theorem foldl_decodeStep_snd_other (sb rd : Bool) (addr : Nat) (bank : Bool) :
    ∀ (pairs : List (Nat × Nat)) (fs : List String) (bm : BankMap) (c : Nat),
    c ≠ addr → (pairs.foldl (decodeStep sb rd addr bank) (fs, bm)).2 c = bm c := by
  intro pairs
  induction pairs with
  | nil => intro fs bm c _; rfl
  | cons p t ih =>
      intro fs bm c hc
      rw [List.foldl_cons]
      have h := ih (decodeStep sb rd addr bank (fs, bm) p).1
        (decodeStep sb rd addr bank (fs, bm) p).2 c hc
      rw [show ((decodeStep sb rd addr bank (fs, bm) p).1,
               (decodeStep sb rd addr bank (fs, bm) p).2)
            = decodeStep sb rd addr bank (fs, bm) p from rfl] at h
      rw [h, decodeStep_snd]
      split
      · split
        · rfl
        · simp [updBank, hc]
      · rfl

theorem foldl_decodeStep_snd_noIocon (sb rd : Bool) (addr : Nat) (bank : Bool) :
    ∀ (pairs : List (Nat × Nat)), (∀ p ∈ pairs, isIocon bank p = false) →
    ∀ (fs : List String) (bm : BankMap),
    (pairs.foldl (decodeStep sb rd addr bank) (fs, bm)).2 = bm := by
  intro pairs
  induction pairs with
  | nil => intro _ fs bm; rfl
  | cons p t ih =>
      intro hno fs bm
      rw [List.foldl_cons]
      have h := ih (fun q hq => hno q (List.mem_cons_of_mem p hq))
        (decodeStep sb rd addr bank (fs, bm) p).1
        (decodeStep sb rd addr bank (fs, bm) p).2
      rw [show ((decodeStep sb rd addr bank (fs, bm) p).1,
               (decodeStep sb rd addr bank (fs, bm) p).2)
            = decodeStep sb rd addr bank (fs, bm) p from rfl] at h
      rw [h, decodeStep_snd, hno p (List.mem_cons_self p t)]
      rfl

theorem foldl_decodeStep_snd_uniq (sb : Bool) (addr : Nat) (bank : Bool) :
    ∀ (pairs : List (Nat × Nat)) (ra v : Nat),
    pairs.filter (isIocon bank) = [(ra, v)] →
    ∀ (fs : List String) (bm : BankMap),
    (pairs.foldl (decodeStep sb false addr bank) (fs, bm)).2
      = updBank bm addr (iocon_bit_test v ("BANK")) := by
  intro pairs
  induction pairs with
  | nil => intro ra v hf; simp [List.filter] at hf
  | cons p t ih =>
      intro ra v hf fs bm
      rw [List.foldl_cons]
      by_cases hp : isIocon bank p = true
      · rw [List.filter_cons_of_pos hp] at hf
        have hpv : p = (ra, v) := (List.cons.injEq _ _ _ _).mp hf |>.1
        have ht : t.filter (isIocon bank) = [] := (List.cons.injEq _ _ _ _).mp hf |>.2
        have hno : ∀ q ∈ t, isIocon bank q = false := by
          intro q hq
          have := List.filter_eq_nil_iff.mp ht q hq
          simpa using this
        rw [foldl_decodeStep_snd_noIocon sb false addr bank t hno]
        rw [decodeStep_snd, if_pos hp]
        simp only [if_neg (Bool.false_ne_true)]
        rw [hpv]
      · have hpf : isIocon bank p = false := by simpa using hp
        rw [List.filter_cons_of_neg (by simp [hpf])] at hf
        have h := ih ra v hf
          (decodeStep sb false addr bank (fs, bm) p).1
          (decodeStep sb false addr bank (fs, bm) p).2
        rw [show ((decodeStep sb false addr bank (fs, bm) p).1,
                 (decodeStep sb false addr bank (fs, bm) p).2)
              = decodeStep sb false addr bank (fs, bm) p from rfl] at h
        rw [h, decodeStep_snd, hpf]
        rfl

/-! ## Invariants of the frame reassembler -/

theorem ll_fsm_emit (s : LLSt) (e : Event) (f : LLFrame)
    (h : (ll_fsm s e).2 = some f) :
    s.state = LLState.DATA ∧ f.address = s.address ∧ f.data = s.data ∧
      f.read = s.read ∧ f.start_time = s.start_time := by
  obtain ⟨st, saddr, sdata, stime, srd⟩ := s
  cases st <;> cases e
  case IDLE.start t => simp [ll_fsm] at h
  case IDLE.address rd a ack => simp [ll_fsm] at h
  case IDLE.data bs => simp [ll_fsm] at h
  case IDLE.stop te => simp [ll_fsm] at h
  case START.start t => simp [ll_fsm] at h
  case START.address rd a ack =>
      rcases ack with _ | _
      · simp [ll_fsm] at h
      · simp only [ll_fsm, if_true] at h
        split at h <;> simp at h
  case START.data bs => simp [ll_fsm] at h
  case START.stop te => simp [ll_fsm] at h
  case DATA.start t => simp [ll_fsm] at h
  case DATA.address rd a ack => simp [ll_fsm] at h
  case DATA.data bs => simp [ll_fsm] at h
  case DATA.stop te =>
      simp only [ll_fsm, Option.some.injEq] at h
      subst h
      exact ⟨rfl, rfl, rfl, rfl, rfl⟩

theorem ll_fsm_state_inv (s : LLSt) (e : Event) (P : Nat → Prop)
    (hs : s.state = LLState.DATA → ∃ a, s.address = some a ∧ inWindow a ∧ P a) :
    (ll_fsm s e).1.state = LLState.DATA →
      ∃ a, (ll_fsm s e).1.address = some a ∧ inWindow a ∧
        (P a ∨ ∃ r, e = Event.address r a true) := by
  obtain ⟨st, saddr, sdata, stime, srd⟩ := s
  cases st <;> cases e <;> simp only [ll_fsm]
  case IDLE.start t => intro h; simp at h
  case IDLE.address rd a ack => intro h; simp [llReset] at h
  case IDLE.data bs => intro h; simp [llReset] at h
  case IDLE.stop te => intro h; simp [llReset] at h
  case START.start t => intro h; simp [llReset] at h
  case START.address rd a ack =>
      rcases ack with _ | _
      · intro h; simp [llReset] at h
      · simp only [Bool.true_eq, if_true]
        by_cases hw : inWindow a
        · rw [if_pos hw]
          intro _
          exact ⟨a, rfl, hw, Or.inr ⟨rd, rfl⟩⟩
        · rw [if_neg hw]
          intro h; simp [llReset] at h
  case START.data bs => intro h; simp [llReset] at h
  case START.stop te => intro h; simp [llReset] at h
  case DATA.start t => intro h; simp at h
  case DATA.address rd a ack => intro h; simp [llReset] at h
  case DATA.data bs =>
      intro _
      obtain ⟨a, ha, hw, hp⟩ := hs rfl
      exact ⟨a, ha, hw, Or.inl hp⟩
  case DATA.stop te => intro h; simp [llReset] at h

theorem llRun_frames_inv :
    ∀ (es : List Event) (s : LLSt) (P : Nat → Prop),
    (s.state = LLState.DATA → ∃ a, s.address = some a ∧ inWindow a ∧ P a) →
    ∀ f ∈ (llRun s es).2, ∃ a, f.address = some a ∧ inWindow a ∧
      (P a ∨ ∃ r, Event.address r a true ∈ es) := by
  intro es
  induction es with
  | nil => intro s P _ f hf; simp [llRun] at hf
  | cons e rest ih =>
      intro s P hs f hf
      simp only [llRun] at hf
      rcases List.mem_append.mp hf with h1 | h2
      · rcases hmem : (ll_fsm s e).2 with _ | g
        · rw [hmem] at h1; simp at h1
        · rw [hmem] at h1
          simp only [Option.toList_some, List.mem_singleton] at h1
          subst h1
          obtain ⟨hst, haddr, _, _, _⟩ := ll_fsm_emit s e f hmem
          obtain ⟨a, ha, hw, hp⟩ := hs hst
          exact ⟨a, by rw [haddr, ha], hw, Or.inl hp⟩
      · have hinv := ll_fsm_state_inv s e P hs
        obtain ⟨a, ha, hw, hp⟩ := ih (ll_fsm s e).1
          (fun a => P a ∨ ∃ r, e = Event.address r a true) hinv f h2
        refine ⟨a, ha, hw, ?_⟩
        rcases hp with hp | ⟨r, hr⟩
        · rcases hp with hp | ⟨r, hr⟩
          · exact Or.inl hp
          · exact Or.inr ⟨r, by rw [← hr]; exact List.mem_cons_self e rest⟩
        · exact Or.inr ⟨r, List.mem_cons_of_mem e hr⟩

/-! ## Claim C1: decode on transactions produced by the reassembler -/

/-- C1 counterexample: a fully valid Start/Address/Stop sequence addressed
to a watched chip makes the Reassembler emit a transaction with an empty
payload, and decode then raises an IndexError (data[0] on an empty
bytearray) instead of returning a record with an empty field list. -/
theorem C1_counterexample :
    (runDecode (mkHLA false false)
        [Event.start 0, Event.address false 0x20 true, Event.stop 1]).2
      = [Except.ok none, Except.ok none, Except.error DecodeError.indexError] := rfl

/-- C1 amended: for every transaction produced by the Reassembler, decode
raises exactly when the payload is empty (an IndexError); on every
non-empty payload it returns a decoded record without error, for any bank
dictionary that covers the watched window. -/
theorem C1_amended_no_raise_on_nonempty (sb : Bool) (bmap : BankMap) (es : List Event)
    (hdom : ∀ a, inWindow a → (bmap a).isSome) :
    ∀ f ∈ (llRun llReset es).2,
      (f.data = [] → decode_tx sb bmap f = Except.error DecodeError.indexError) ∧
      (f.data ≠ [] → ∃ p, decode_tx sb bmap f = Except.ok p) := by
  intro f hf
  obtain ⟨a, ha, hw, _⟩ := llRun_frames_inv es llReset (fun _ => False)
    (fun h => absurd h (by simp [llReset])) f hf
  constructor
  · intro hd
    simp [decode_tx, hd]
  · intro hd
    rcases hfd : f.data with _ | ⟨o, vals⟩
    · exact absurd hfd hd
    · have hsome := hdom a hw
      rcases hbk : bmap a with _ | bank
      · rw [hbk] at hsome; simp at hsome
      · exact ⟨_, by simp only [decode_tx, hfd, ha, hbk]; rfl⟩

/-- C1 witness: a concrete valid two-byte write transaction decodes
without error. -/
theorem C1_amended_no_raise_on_nonempty_witness :
    ∃ p, decode_tx false (initBank false)
        { start_time := some 0, end_time := 3, data := [1, 2],
          read := false, address := some 0x20 }
      = Except.ok p :=
  (C1_amended_no_raise_on_nonempty false (initBank false)
      [Event.start 0, Event.address false 0x20 true, Event.data [1, 2], Event.stop 3]
      (fun a ha => by simp [initBank, if_pos ha])
      { start_time := some 0, end_time := 3, data := [1, 2],
        read := false, address := some 0x20 }
      (by decide)).2 (by decide)

/-! ## Claim C2: Start received while InTransaction -/

/-- C2 counterexample: after Start, acknowledged Address 0x20, Data 0xAA,
a second Start, a second acknowledged Address, Data 0xBB and Stop, the
code emits one transaction that still contains the byte 0xAA buffered
before the repeated Start and keeps the original start time 0, while the
claim says that payload is discarded and the start time refreshed to 5. -/
theorem C2_counterexample :
    ((llRun llReset
        [Event.start 0, Event.address false 0x20 true, Event.data [0xAA],
         Event.start 5, Event.address false 0x20 true, Event.data [0xBB],
         Event.stop 9]).2
      = [{ start_time := some 0, end_time := 9, data := [0xAA, 0xBB],
           read := false, address := some 0x20 }]) ∧
    ((0xAA : Nat) ∈ LLFrame.data
        { start_time := some 0, end_time := 9, data := [0xAA, 0xBB],
          read := false, address := some 0x20 }) ∧
    (LLFrame.start_time
        { start_time := some 0, end_time := 9, data := [0xAA, 0xBB],
          read := false, address := some 0x20 } ≠ some 5) := by decide

/-- C2 amended: a Start event in the DATA state moves the machine back to
the START state and emits nothing, but retains the buffered payload, the
direction flag, the chip address and the original start time, so that a
subsequent acknowledged in-window Address continues the same transaction
(this is what makes write-then-read repeated starts decodable). -/
theorem C2_amended_repeated_start_resumes (s : LLSt) (t : Nat)
    (h : s.state = LLState.DATA) :
    ll_fsm s (Event.start t) = ({ s with state := LLState.START }, none) := by
  obtain ⟨st, saddr, sdata, stime, srd⟩ := s
  simp only at h
  subst h
  rfl

/-- C2 witness: the amended transition at a concrete DATA state. -/
theorem C2_amended_repeated_start_resumes_witness :
    ll_fsm { state := LLState.DATA, address := some 0x20, data := [1],
             start_time := some 0, read := false } (Event.start 5)
      = ({ state := LLState.START, address := some 0x20, data := [1],
           start_time := some 0, read := false }, none) :=
  C2_amended_repeated_start_resumes
    { state := LLState.DATA, address := some 0x20, data := [1],
      start_time := some 0, read := false } 5 rfl

/-! ## Claim C9: determinism of the pipeline -/

/-- C9: the pipeline is deterministic: two runs with equal settings and
equal event sequences produce equal analyzer states and equal decoded
records. -/
theorem C9_deterministic (b1 b2 s1 s2 : Bool) (es1 es2 : List Event)
    (hb : b1 = b2) (hs : s1 = s2) (he : es1 = es2) :
    runDecode (mkHLA b1 s1) es1 = runDecode (mkHLA b2 s2) es2 := by
  subst hb; subst hs; subst he; rfl

/-- C9 witness at a concrete configuration and event list. -/
theorem C9_deterministic_witness :
    runDecode (mkHLA false true) [Event.start 0]
      = runDecode (mkHLA false true) [Event.start 0] :=
  C9_deterministic false false true true [Event.start 0] [Event.start 0] rfl rfl rfl

/-! ## Field expansion in the non-verbose case -/

theorem fieldFor_false (bank : Bool) (p : Nat × Nat) :
    fieldFor false bank p = [regNameOf bank p.1 ++ "=" ++ pyHex04 p.2] := by
  by_cases h : (regNameOf bank p.1 == "IOCON") = true <;> simp [fieldFor, h]

theorem expandAll_eq_map (f : Nat × Nat → List String) (g : Nat × Nat → String)
    (hf : ∀ p, f p = [g p]) : ∀ l : List (Nat × Nat), expandAll f l = l.map g := by
  intro l
  induction l with
  | nil => rfl
  | cons p t ih => rw [expandAll, hf, ih]; rfl

theorem getD_map_of_lt (g : Nat × Nat → String) :
    ∀ (l : List (Nat × Nat)) (i : Nat), i < l.length →
    (l.map g).getD i ("") = g (l.getD i (0, 0)) := by
  intro l
  induction l with
  | nil => intro i h; simp at h
  | cons p t ih =>
      intro i h
      cases i with
      | zero => rfl
      | succ j =>
          have hj : j < t.length := by simpa using h
          simpa using ih j hj

/-! ## Claim C3: bank mode within a single transaction -/

/-- C3 counterexample: bank mode 0, write transaction with payload
offset 0x0a and values 0x80, 0x00.  The first value writes IOCON with the
bank-select bit set; if the new mode applied to the following offset of
the same payload, offset 0x0b would resolve under the bank-1 table (where
it is unmapped), but the code resolves it under the snapshot table as
IOCON again, and the final stored mode comes from that second byte. -/
theorem C3_counterexample :
    ((decodeLoop false false 0x20 false (initBank false)
        (pyEnumerate 0x0a [0x80, 0x00])).1 = ["IOCON=0x80", "IOCON=0x00"]) ∧
    ((decodeLoop false false 0x20 false (initBank false)
        (pyEnumerate 0x0a [0x80, 0x00])).2 0x20 = some false) ∧
    (regNameOf true 0x0b ++ "=" ++ pyHex04 0x00 ≠ "IOCON=0x00") ∧
    ((runDecode (mkHLA false false)
        [Event.start 0, Event.address false 0x20 true,
         Event.data [0x0a, 0x80, 0x00], Event.stop 3]).2
      = [Except.ok none, Except.ok none, Except.ok none,
         Except.ok (some { address := 0x20, read := "write",
                           data := "IOCON=0x80; IOCON=0x00" })]) :=
  ⟨rfl, rfl, by decide, rfl⟩

/-- C3 amended: the register names of every offset of a payload are
resolved with the bank mode read once at the start of the transaction
(the snapshot); an IOCON write inside the payload changes the stored
mode for later transactions only, never the resolution of the remaining
offsets of the same payload. -/
theorem C3_amended_snapshot_resolution (sb rd : Bool) (addr : Nat) (bank : Bool)
    (bmap : BankMap) (o : Nat) (vals : List Nat) :
    (decodeLoop sb rd addr bank bmap (pyEnumerate o vals)).1
      = expandAll (fieldFor sb bank) (pyEnumerate o vals) :=
  decodeLoop_fst sb rd addr bank bmap (pyEnumerate o vals)

/-! ## Claim C4: one field per value byte, in offset order -/

/-- C4 counterexample: with verbose bit expansion enabled, a payload with
one value byte written to IOCON produces seven fields, not one. -/
theorem C4_counterexample :
    ((decodeLoop true false 0x20 false (initBank false)
        (pyEnumerate 0x0a [0x80])).1.length = 7) ∧
    ([(0x80 : Nat)].length = 1) ∧ ((7 : Nat) ≠ 1) := by decide

/-- C4 amended: with verbose bit expansion disabled, the decode loop
produces exactly one field per value byte, in offset order o, o+1, ...,
with no field omitted or reordered; with it enabled an IOCON byte instead
expands to seven fields in place. -/
theorem C4_amended_field_per_byte (rd : Bool) (addr : Nat) (bank : Bool)
    (bmap : BankMap) (o : Nat) (vals : List Nat) :
    ((decodeLoop false rd addr bank bmap (pyEnumerate o vals)).1.length = vals.length) ∧
    (∀ i, i < vals.length →
      (decodeLoop false rd addr bank bmap (pyEnumerate o vals)).1.getD i ("")
        = regNameOf bank (o + i) ++ "=" ++ pyHex04 (vals.getD i 0)) := by
  have hmap : (decodeLoop false rd addr bank bmap (pyEnumerate o vals)).1
      = (pyEnumerate o vals).map (fun p => regNameOf bank p.1 ++ "=" ++ pyHex04 p.2) := by
    rw [decodeLoop_fst]
    exact expandAll_eq_map _ _ (fieldFor_false bank) _
  constructor
  · rw [hmap, List.length_map, pyEnumerate_length]
  · intro i hi
    have hi2 : i < (pyEnumerate o vals).length := by rw [pyEnumerate_length]; exact hi
    rw [hmap, getD_map_of_lt _ _ i hi2, pyEnumerate_getD vals o i hi]

/-- C4 witness: two value bytes decode to two fields at offsets 0x12 and
0x13. -/
theorem C4_amended_field_per_byte_witness :
    ((decodeLoop false false 0x20 false (initBank false)
        (pyEnumerate 0x12 [0xAB, 0xCD])).1.length = [(0xAB : Nat), 0xCD].length) ∧
    ((decodeLoop false false 0x20 false (initBank false)
        (pyEnumerate 0x12 [0xAB, 0xCD])).1.getD 0 ("")
      = regNameOf false (0x12 + 0) ++ "=" ++ pyHex04 ([(0xAB : Nat), 0xCD].getD 0 0)) :=
  ⟨(C4_amended_field_per_byte false 0x20 false (initBank false) 0x12 [0xAB, 0xCD]).1,
   (C4_amended_field_per_byte false 0x20 false (initBank false) 0x12 [0xAB, 0xCD]).2 0
     (by decide)⟩

/-! ## Claim C5: verbose decoding of a write of 0x84 to IOCON -/

/-- C5 counterexample: in the verbose decoding of a write of 0x84 to the
configuration register, the claimed field HAEN=True does not occur; the
HAEN bit (bit 3) of 0x84 is clear, so the field is HAEN=False. -/
theorem C5_counterexample :
    (("HAEN=True") ∉ (decodeLoop true false 0x20 false (initBank false)
        (pyEnumerate 0x0a [0x84])).1) ∧
    (("HAEN=False") ∈ (decodeLoop true false 0x20 false (initBank false)
        (pyEnumerate 0x0a [0x84])).1) := by decide

/-- C5 amended: with verbose bit expansion enabled, a write of 0x84 to
IOCON produces exactly the seven named-bit fields, with ODR=True and
BANK=True (bits 2 and 7 of 0x84) and every other bit False; bit 0 is
never emitted. -/
theorem C5_amended_verbose_0x84 :
    ((decodeLoop true false 0x20 false (initBank false)
        (pyEnumerate 0x0a [0x84])).1
      = ["INTPOL=False", "ODR=True", "HAEN=False", "DISSLW=False",
         "SEQOP=False", "MIRROW=False", "BANK=True"]) ∧
    (∃ bm rec, decode_tx true (initBank false)
        { start_time := some 0, end_time := 1, data := [0x0a, 0x84],
          read := false, address := some 0x20 }
      = Except.ok (bm, rec) ∧
      rec.data
        = "INTPOL=False; ODR=True; HAEN=False; DISSLW=False; SEQOP=False; MIRROW=False; BANK=True") :=
  ⟨rfl, ⟨_, _, rfl, rfl⟩⟩

/-! ## Claim C6: only acknowledged, in-window addresses are emitted -/

/-- C6: every transaction the Reassembler emits carries a chip address
inside the watched window 0x20-0x27, and the input contains an
acknowledged Address event bearing exactly that address; moreover a fully
valid Start/Address/Data/Stop sequence addressed to 0x30 emits nothing. -/
theorem C6_window_and_ack :
    (∀ (es : List Event), ∀ f ∈ (llRun llReset es).2,
      ∃ a, f.address = some a ∧ inWindow a ∧ ∃ r, Event.address r a true ∈ es) ∧
    (∀ (r : Bool) (b t0 t1 : Nat),
      (llRun llReset [Event.start t0, Event.address r 0x30 true, Event.data [b],
                      Event.stop t1]).2 = []) := by
  constructor
  · intro es f hf
    obtain ⟨a, ha, hw, hp⟩ := llRun_frames_inv es llReset (fun _ => False)
      (fun h => absurd h (by simp [llReset])) f hf
    rcases hp with hp | hp
    · exact hp.elim
    · exact ⟨a, ha, hw, hp⟩
  · intro r b t0 t1
    rfl

/-- C6 witness: a concrete valid transaction to the watched address 0x21
is emitted, lies in the window, and has its acknowledged Address event in
the input list. -/
theorem C6_window_and_ack_witness :
    ∃ a, ({ start_time := some 0, end_time := 4, data := [3], read := true,
            address := some 0x21 } : LLFrame).address = some a ∧ inWindow a ∧
      ∃ r, Event.address r a true ∈
        [Event.start 0, Event.address true 0x21 true, Event.data [3], Event.stop 4] :=
  C6_window_and_ack.1
    [Event.start 0, Event.address true 0x21 true, Event.data [3], Event.stop 4]
    { start_time := some 0, end_time := 4, data := [3], read := true,
      address := some 0x21 }
    (by decide)

/-! ## Claim C7: an IOCON write replaces the bank mode of one chip -/

/-- C7: a write transaction whose payload writes the configuration
register at exactly one position replaces the bank-mode entry of its own
chip address with the BANK bit of the written value, leaves every other
chip address unchanged, and the next transaction decoded for that chip
resolves its register names under the new mode. -/
theorem C7_iocon_write_updates_bank (sb : Bool) (bmap : BankMap) (f : LLFrame)
    (addr o ra v : Nat) (vals : List Nat) (bank : Bool)
    (haddr : f.address = some addr) (hdata : f.data = o :: vals) (hread : f.read = false)
    (hbank : bmap addr = some bank)
    (huniq : (pyEnumerate o vals).filter (isIocon bank) = [(ra, v)]) :
    ∃ bm rec, decode_tx sb bmap f = Except.ok (bm, rec) ∧
      bm addr = some (iocon_bit_test v ("BANK")) ∧
      (∀ c, c ≠ addr → bm c = bmap c) ∧
      (∀ (sb2 : Bool) (f2 : LLFrame) (o2 : Nat) (vals2 : List Nat),
        f2.address = some addr → f2.data = o2 :: vals2 →
        ∃ q, decode_tx sb2 bm f2 = Except.ok q ∧
          q.2.data = String.intercalate ("; ")
            (expandAll (fieldFor sb2 (iocon_bit_test v ("BANK"))) (pyEnumerate o2 vals2))) := by
  have hbmeq : (decodeLoop sb f.read addr bank bmap (pyEnumerate o vals)).2
      = updBank bmap addr (iocon_bit_test v ("BANK")) := by
    rw [hread]
    exact foldl_decodeStep_snd_uniq sb addr bank (pyEnumerate o vals) ra v huniq [] bmap
  have hok : decode_tx sb bmap f
      = Except.ok (updBank bmap addr (iocon_bit_test v ("BANK")),
          { address := addr, read := if f.read then "read" else "write",
            data := String.intercalate ("; ")
              (decodeLoop sb f.read addr bank bmap (pyEnumerate o vals)).1 }) := by
    simp only [decode_tx, hdata, haddr, hbank]
    rw [hbmeq]
  refine ⟨_, _, hok, by simp [updBank], fun c hc => by simp [updBank, hc], ?_⟩
  intro sb2 f2 o2 vals2 h2a h2d
  have hb2 : updBank bmap addr (iocon_bit_test v ("BANK")) addr
      = some (iocon_bit_test v ("BANK")) := by simp [updBank]
  have hok2 : decode_tx sb2 (updBank bmap addr (iocon_bit_test v ("BANK"))) f2
      = Except.ok ((decodeLoop sb2 f2.read addr (iocon_bit_test v ("BANK"))
            (updBank bmap addr (iocon_bit_test v ("BANK"))) (pyEnumerate o2 vals2)).2,
          { address := addr, read := if f2.read then "read" else "write",
            data := String.intercalate ("; ")
              (decodeLoop sb2 f2.read addr (iocon_bit_test v ("BANK"))
                (updBank bmap addr (iocon_bit_test v ("BANK"))) (pyEnumerate o2 vals2)).1 }) := by
    simp only [decode_tx, h2d, h2a, hb2]
  exact ⟨_, hok2, by simp only [decodeLoop_fst]⟩

/-- C7 witness: writing 0x80 to IOCON at chip 0x20 from bank 0. -/
theorem C7_iocon_write_updates_bank_witness :
    ∃ bm rec, decode_tx false (initBank false)
        { start_time := some 0, end_time := 1, data := [0x0a, 0x80],
          read := false, address := some 0x20 } = Except.ok (bm, rec) ∧
      bm 0x20 = some (iocon_bit_test 0x80 ("BANK")) ∧
      (∀ c, c ≠ 0x20 → bm c = initBank false c) ∧
      (∀ (sb2 : Bool) (f2 : LLFrame) (o2 : Nat) (vals2 : List Nat),
        f2.address = some 0x20 → f2.data = o2 :: vals2 →
        ∃ q, decode_tx sb2 bm f2 = Except.ok q ∧
          q.2.data = String.intercalate ("; ")
            (expandAll (fieldFor sb2 (iocon_bit_test 0x80 ("BANK"))) (pyEnumerate o2 vals2))) :=
  C7_iocon_write_updates_bank false (initBank false)
    { start_time := some 0, end_time := 1, data := [0x0a, 0x80],
      read := false, address := some 0x20 }
    0x20 0x0a 0x0a 0x80 [0x80] false rfl rfl rfl (by decide) (by decide)

/-! ## Claim C8: reads never mutate the bank state -/

/-- C8: when the event completes a transaction whose direction is read,
decode leaves every entry of the IOCON_BANK dictionary unchanged,
whatever registers and values appear in the payload. -/
theorem C8_read_preserves_bank (m : HLA) (e : Event) (f : LLFrame)
    (hemit : (ll_fsm m.ll e).2 = some f) (hread : f.read = true) (a : Nat) :
    (decode m e).1.IOCON_BANK a = m.IOCON_BANK a := by
  simp only [decode, hemit]
  rcases hfd : f.data with _ | ⟨o, vals⟩
  · simp [decode_tx, hfd]
  rcases hfa : f.address with _ | addr
  · simp [decode_tx, hfd, hfa]
  rcases hba : m.IOCON_BANK addr with _ | bank
  · simp [decode_tx, hfd, hfa, hba]
  have hloop : (decodeLoop m.show_bits_setting f.read addr bank m.IOCON_BANK
      (pyEnumerate o vals)).2 = m.IOCON_BANK := by
    rw [hread]
    exact foldl_decodeStep_snd_read m.show_bits_setting addr bank (pyEnumerate o vals)
      [] m.IOCON_BANK
  simp only [decode_tx, hfd, hfa, hba, hloop]

/-- C8 witness: a concrete completed read of GPIOA leaves the bank entry
of chip 0x20 unchanged. -/
theorem C8_read_preserves_bank_witness :
    (decode
        { iocon_bank_setting := false, show_bits_setting := false,
          IOCON_BANK := initBank false,
          ll := { state := LLState.DATA, address := some 0x20,
                  data := [0x09, 0x05], start_time := some 0, read := true } }
        (Event.stop 3)).1.IOCON_BANK 0x20
      = ({ iocon_bank_setting := false, show_bits_setting := false,
           IOCON_BANK := initBank false,
           ll := { state := LLState.DATA, address := some 0x20,
                   data := [0x09, 0x05], start_time := some 0, read := true } } : HLA).IOCON_BANK
          0x20 :=
  C8_read_preserves_bank
    { iocon_bank_setting := false, show_bits_setting := false,
      IOCON_BANK := initBank false,
      ll := { state := LLState.DATA, address := some 0x20,
              data := [0x09, 0x05], start_time := some 0, read := true } }
    (Event.stop 3)
    { start_time := some 0, end_time := 3, data := [0x09, 0x05],
      read := true, address := some 0x20 }
    (by decide) rfl 0x20

/-! ## Claim C10: register offsets are never reduced modulo 256 -/

/-- C10: the offset paired with the i-th value byte is the plain sum
o + i, with no modulo; when that sum exceeds 0xff it matches no entry of
either register table and its field is rendered as the raw hex offset
followed by a question mark. -/
theorem C10_no_wraparound (sb bank : Bool) (o : Nat) (vals : List Nat) (i v : Nat)
    (hi : i < vals.length) (hover : 0xff < o + i) :
    ((pyEnumerate o vals).getD i (0, 0) = (o + i, vals.getD i 0)) ∧
    (mapGet bank (o + i) = none) ∧
    (fieldFor sb bank (o + i, v) = [pyHex04 (o + i) ++ "?" ++ "=" ++ pyHex04 v]) := by
  have hnone : mapGet bank (o + i) = none := mapGet_none_of_big bank (o + i) (by omega)
  refine ⟨pyEnumerate_getD vals o i hi, hnone, ?_⟩
  have hne := regNameOf_ne_IOCON_of_unmapped bank (o + i) hnone
  have hreg : regNameOf bank (o + i) = pyHex04 (o + i) ++ "?" := by
    rw [regNameOf, hnone, Option.getD_none]
  simp only [fieldFor, hne]
  rw [if_neg (by simp)]
  rw [hreg]

/-- C10 witness: starting at offset 0xff, the second value byte lands on
offset 0x100, which is unmapped in both tables and rendered raw. -/
theorem C10_no_wraparound_witness :
    ((pyEnumerate 0xff [1, 2]).getD 1 (0, 0) = (0xff + 1, [(1 : Nat), 2].getD 1 0)) ∧
    (mapGet false (0xff + 1) = none) ∧
    (fieldFor false false (0xff + 1, 2) = [pyHex04 (0xff + 1) ++ "?" ++ "=" ++ pyHex04 2]) :=
  C10_no_wraparound false false 0xff [1, 2] 1 2 (by decide) (by decide)

end MCP23017
